import Mathlib

/-!
Verification of the scrape-orchestration engine (Maheshbsv/scrape-with-llm)
against its natural-language specification.

The Python source is shallowly embedded: each definition below mirrors one
function (or one code path) of the repository.  Wall-clock values are
modelled as natural numbers counting seconds, database rows as Lean
structures, and each fallible I/O step of an orchestration function as an
explicit success/failure parameter, so that every control path of the
Python code corresponds to one evaluation of the Lean function.
-/

/-! ## Browser pool (src/app/scrapers/playwright_manager.py, class BrowserManager) -/

/-- State of the browser pool: `browsers` is the list of pooled instance
identifiers (`self.browsers`), `usage` the last-hand-out timestamp per
instance in seconds (`self.browser_usage`, insertion-ordered as a Python
dict).  Dict keys are unique, matching `usage` holding each id once. -/
structure PoolState where
  browsers : List Nat
  usage : List (Nat × Nat)
  deriving Repr, DecidableEq

/-- Python `(current_time - last_used).seconds`: the seconds component of a
timedelta, i.e. the elapsed whole seconds modulo one day (86400), not the
total elapsed time. -/
def tdSeconds (now last : Nat) : Nat :=
  (now - last) % 86400

/-- BrowserManager.cleanup_idle_browsers (lines 181-203).  First pass marks
every browser whose `.seconds` idle component exceeds `max_idle_time`,
guarded by `len(self.browsers) > 1` — a length that does not change while
marking.  Second pass closes and removes every marked browser from both
`self.browsers` and `self.browser_usage`. -/
def cleanup_idle_browsers (st : PoolState) (now max_idle_time : Nat) : PoolState :=
  let browsers_to_remove :=
    (st.usage.filter (fun bu =>
      decide (tdSeconds now bu.2 > max_idle_time) && decide (st.browsers.length > 1))).map Prod.fst
  { browsers := browsers_to_remove.foldl (fun bs b => bs.erase b) st.browsers
    usage := browsers_to_remove.foldl (fun us b => us.filter (fun bu => bu.1 ≠ b)) st.usage }

/-! ## Database rows (src/app/database/models.py) and
source-status update (src/app/database/operations.py) -/

/-- Mutable columns of a `psu_sources` row touched by
`update_source_status`.  Timestamps are seconds; nullable columns are
`Option`. -/
structure SourceRow where
  success_count : Nat
  error_count : Nat
  last_scraped : Option Nat
  last_success : Option Nat
  updated_at : Nat
  deriving Repr, DecidableEq

/-- One `scraping_logs` row as written by `ScrapingJobs._scrape_source`. -/
structure LogRow where
  source_id : Nat
  status : String
  notifications_found : Nat
  error_message : Option String
  deriving Repr, DecidableEq

/-- DatabaseOperations.update_source_status (operations.py lines 49-71):
a single UPDATE whose values dict always assigns `last_scraped = now`,
`last_success = now if success else None`, increments exactly one of the
two counters, and stamps `updated_at`.  The `notifications_count` and
`error_message` parameters of the Python function are accepted but never
used in the UPDATE. -/
def update_source_status (src : SourceRow) (success : Bool) (now : Nat) : SourceRow :=
  { success_count := src.success_count + (if success then 1 else 0)
    error_count := src.error_count + (if success then 0 else 1)
    last_scraped := some now
    last_success := if success then some now else none
    updated_at := now }

/-! ## Scraper result and the base scrape flow
(src/app/scrapers/base_scraper.py) -/

/-- Field bundle produced per extracted notification
(base_scraper.py, dataclass NotificationData).  Dates are (year, month,
day) triples. -/
structure NotificationData where
  title : String
  tender_id : Option String := none
  location : Option String := none
  category : Option String := none
  start_date : Option (Nat × Nat × Nat) := none
  end_date : Option (Nat × Nat × Nat) := none
  raw_content : Option String := none
  deriving Repr, DecidableEq

/-- ScrapingResult dataclass (base_scraper.py lines 14-22); the float
`execution_time` field is wall-clock only and outside this model. -/
structure ScrapingResult where
  success : Bool
  notifications : List NotificationData
  error_message : Option String := none
  page_size_kb : Option Nat := none
  deriving Repr, DecidableEq

/-- BaseScraper.scrape (lines 62-121), with each I/O step's outcome made
explicit: `navOk` is whether navigation raised, `validStructure` the value
returned by `validate_page_structure`, `notifs` what
`extract_notifications` returns and `pageSize` the measured page size.
A navigation failure or a failed structure validation raises inside the
`try`, and the `except` arm returns a failure result with empty
notifications and the exception text. -/
def scrape (navOk validStructure : Bool) (notifs : List NotificationData)
    (pageSize : Nat) : ScrapingResult :=
  if !navOk then
    { success := false, notifications := [], error_message := some "Navigation failed" }
  else if !validStructure then
    { success := false, notifications := [],
      error_message := some "Page structure validation failed" }
  else
    { success := true, notifications := notifs, error_message := none,
      page_size_kb := some pageSize }

/-! ## Job orchestration (src/app/scheduler/jobs.py, ScrapingJobs._scrape_source) -/

/-- Observable persistent state a job touches: the job's source row and the
append-only scraping log. -/
structure DBState where
  source : SourceRow
  logs : List LogRow
  deriving Repr, DecidableEq

/-- Outcome of each fallible step of one `_scrape_source` attempt:
whether `get_browser_context` returns, what the extraction call produces
(`none` meaning it raised), and whether each of the two database writes
raises. -/
structure ScrapeScenario where
  ctxOk : Bool
  extract : Option ScrapingResult
  updateOk : Bool
  logOk : Bool
  deriving Repr, DecidableEq

/-- ScrapingJobs._scrape_source (jobs.py lines 108-142) acting on the
persistent state, for a source with id `sid`.  The `try` body obtains a
context, extracts, calls `update_source_status(success=result.success,...)`
and then creates one ScrapingLog row with status `'success' if
result.success else 'error'`; any exception anywhere in the body jumps to
the `except` arm, which only calls `update_source_status(success=False)` —
it writes no log row.  A database call that raises applies nothing (the
session rolls back). -/
def scrape_source (sc : ScrapeScenario) (sid : Nat) (now : Nat) (st : DBState) : DBState :=
  let handler : DBState → DBState := fun s =>
    { s with source := update_source_status s.source false now }
  if !sc.ctxOk then handler st
  else
    match sc.extract with
    | none => handler st
    | some result =>
      if !sc.updateOk then handler st
      else
        let st1 : DBState :=
          { st with source := update_source_status st.source result.success now }
        if !sc.logOk then handler st1
        else
          { st1 with logs := st1.logs ++
              [{ source_id := sid
                 status := if result.success then "success" else "error"
                 notifications_found := result.notifications.length
                 error_message := result.error_message }] }

/-! ## Python string helpers shared by several embedded functions -/

/-- Python `str.strip()` / regex `\s` whitespace class on the ASCII range:
space, tab, newline, carriage return, vertical tab, form feed. -/
def isPySpace (c : Char) : Bool :=
  c = ' ' || c = '\t' || c = '\n' || c = '\r' || c.toNat = 11 || c.toNat = 12

/-- Python `str.strip()`: drop leading and trailing whitespace. -/
def pyStrip (s : List Char) : List Char :=
  ((s.dropWhile isPySpace).reverse.dropWhile isPySpace).reverse

/-- Backtick character (code 96). -/
def tick : Char := Char.ofNat 96

/-- Opening curly brace character (code 123). -/
def lbrace : Char := Char.ofNat 123

/-- Closing curly brace character (code 125). -/
def rbrace : Char := Char.ofNat 125

/-! ## Inference retry layer (src/app/llm/processor.py, LlamaProcessor) -/

/-- The `while retries < max_retries` loop of
LlamaProcessor._call_ollama_with_retry (processor.py lines 152-182).
`svc n` is the outcome of the external call on attempt index `n` (`none`
means the attempt raised or returned a non-200 status).  Returns the
result (`none` models the final `raise` after exhaustion), the list of
backoff sleeps performed in order, and the number of attempts made.
On a failure the code increments `retries` and, when more attempts
remain, sleeps `retry_delay * 2 ** (retries - 1)` seconds. -/
def call_loop (svc : Nat → Option String) (max_retries retry_delay retries : Nat) :
    Option String × List Nat × Nat :=
  if _h : retries < max_retries then
    match svc retries with
    | some resp => (some resp, [], retries + 1)
    | none =>
      if retries + 1 < max_retries then
        let r := call_loop svc max_retries retry_delay (retries + 1)
        (r.1, retry_delay * 2 ^ retries :: r.2.1, r.2.2)
      else (none, [], retries + 1)
  else (none, [], retries)
termination_by max_retries - retries

/-- LlamaProcessor._call_ollama_with_retry with the constructor's retry
configuration: `self.max_retries = 3`, `self.retry_delay = 2`. -/
def call_ollama_with_retry (svc : Nat → Option String) : Option String × List Nat × Nat :=
  call_loop svc 3 2 0

/-- LlamaProcessor.extract_notifications (processor.py lines 56-90).
The guard `if not content or len(content.strip()) < 50` returns `[]`
before any service call.  Otherwise the retry layer runs; on success the
response goes through parsing/validation (abstracted as the `parse`
parameter, which the claim under verification does not constrain) and on
any raised exception the outer handler returns `[]`.  The second
component counts external service attempts actually made. -/
def llm_extract_notifications (svc : Nat → Option String)
    (parse : String → List NotificationData) (content : List Char) :
    List NotificationData × Nat :=
  if content = [] ∨ (pyStrip content).length < 50 then ([], 0)
  else
    match call_ollama_with_retry svc with
    | (some resp, _, att) => (parse resp, att)
    | (none, _, att) => ([], att)

/-! ## Response JSON extraction (src/app/llm/validators.py,
ResponseValidator._extract_json, lines 92-106) -/

/-- Scan to the first occurrence of three consecutive backticks and return
the suffix that follows it, or `none` when no fence opener exists. -/
def dropUntilTicks : List Char → Option (List Char)
  | [] => none
  | c :: rest =>
    if c = tick ∧ rest.take 2 = [tick, tick] then some (rest.drop 2)
    else dropUntilTicks rest

/-- Split at the next occurrence of three consecutive backticks: returns
the content before the fence closer (and the suffix after it), or `none`
when the input holds no closer. -/
def splitBeforeTicks : List Char → Option (List Char × List Char)
  | [] => none
  | c :: rest =>
    if c = tick ∧ rest.take 2 = [tick, tick] then some ([], rest.drop 2)
    else
      match splitBeforeTicks rest with
      | some p => some (c :: p.1, p.2)
      | none => none

/-- The first regex of `_extract_json`:
three backticks, an optional literal `json` tag, the (whitespace-trimmed,
lazily matched) fenced content, then three closing backticks. -/
def fencedContent (s : List Char) : Option (List Char) :=
  match dropUntilTicks s with
  | none => none
  | some after1 =>
    let after2 := if after1.take 4 = ['j', 's', 'o', 'n'] then after1.drop 4 else after1
    match splitBeforeTicks after2 with
    | some p => some (pyStrip p.1)
    | none => none

/-- The second regex of `_extract_json`, a greedy brace capture: it matches
from the first opening brace through the LAST closing brace of the whole
string (requiring at least one closing brace after the opener). -/
def braceSpan (s : List Char) : Option (List Char) :=
  let rest := s.dropWhile (· ≠ lbrace)
  match rest with
  | [] => none
  | c :: tailCs =>
    if rbrace ∈ tailCs then
      let afterLen := (tailCs.reverse.takeWhile (· ≠ rbrace)).length
      some (c :: tailCs.take (tailCs.length - afterLen))
    else none

/-- ResponseValidator._extract_json: fenced block contents when present,
else the greedy brace span, else the whitespace-stripped raw response. -/
def extract_json (s : List Char) : List Char :=
  match fencedContent s with
  | some content => content
  | none =>
    match braceSpan s with
    | some span => span
    | none => pyStrip s

/-- Modelled from the spec: the "first top-level brace-delimited span" that
the spec says `_extract_json` falls back to — the balanced span starting
at the first opening brace and ending at its matching closing brace.
Stated here only for comparison against `braceSpan`, the behavior the
source actually implements. -/
def balancedFrom : List Char → Nat → Option (List Char)
  | [], _ => none
  | c :: rest, depth =>
    if c = lbrace then (balancedFrom rest (depth + 1)).map (c :: ·)
    else if c = rbrace then
      if depth = 1 then some [c]
      else if depth = 0 then none
      else (balancedFrom rest (depth - 1)).map (c :: ·)
    else (balancedFrom rest depth).map (c :: ·)

/-- Modelled from the spec: span from the first top-level opening brace to
its matching closing brace. -/
def firstTopLevelBraceSpan (s : List Char) : Option (List Char) :=
  balancedFrom (s.dropWhile (· ≠ lbrace)) 0

/-! ## Content fingerprint and notification ingestion
(src/app/database/operations.py, DatabaseOperations.create_notifications,
lines 74-109).

The fingerprint is `hashlib.sha256(json.dumps(data, sort_keys=True)
.encode()).hexdigest()`.  We embed the serialized canonical string
`json.dumps(data, sort_keys=True)` itself and use it directly as the
dedup key: the SHA-256 hex digest of a string is a deterministic function
of it, so every equality of keys proved below transfers to an equality of
digests, and every inequality transfers up to a hash collision — the same
proviso the specification itself states. -/

/-- JSON value of a candidate-record field as produced by the scrapers:
a string or `null` (`None`). -/
inductive JVal where
  | null : JVal
  | str : List Char → JVal
  deriving Repr, DecidableEq

/-- A candidate record: the insertion-ordered item list of the Python dict
passed to `create_notifications` (keys unique, as in any dict). -/
abbrev RecordFields := List (List Char × JVal)

/-- Lexicographic code-point comparison of strings, the order Python
`sorted` applies to the dict's keys. -/
def keyLe : List Char → List Char → Bool
  | [], _ => true
  | _ :: _, [] => false
  | a :: l₁, b :: l₂ => if a < b then true else if a = b then keyLe l₁ l₂ else false

/-- The `sort_keys=True` canonicalization: fields sorted by key. -/
def canonicalFields (r : RecordFields) : RecordFields :=
  r.mergeSort (fun p q => keyLe p.1 q.1)

/-- Lowercase hex digit, as emitted by Python's JSON `\uXXXX` escapes. -/
def hexDigit (n : Nat) : Char :=
  Char.ofNat (if n < 10 then 48 + n else 87 + n)

/-- Four-digit hex rendering of `n < 65536`. -/
def hex4 (n : Nat) : List Char :=
  [hexDigit (n / 4096 % 16), hexDigit (n / 256 % 16), hexDigit (n / 16 % 16), hexDigit (n % 16)]

/-- Python `json.dumps` escaping of one character (default
`ensure_ascii=True`): the two JSON specials, the five short control
escapes, `\u00XX` for the remaining control characters, a `\uXXXX`
(surrogate pair above U+FFFF) for every non-ASCII character, and the
character itself for printable ASCII. -/
def escapeChar (c : Char) : List Char :=
  if c = '\"' then ['\\', '\"']
  else if c = '\\' then ['\\', '\\']
  else if c.toNat = 8 then ['\\', 'b']
  else if c.toNat = 9 then ['\\', 't']
  else if c.toNat = 10 then ['\\', 'n']
  else if c.toNat = 12 then ['\\', 'f']
  else if c.toNat = 13 then ['\\', 'r']
  else if c.toNat < 32 ∨ 126 < c.toNat then
    if c.toNat < 65536 then ['\\', 'u'] ++ hex4 c.toNat
    else
      let n := c.toNat - 65536
      (['\\', 'u'] ++ hex4 (55296 + n / 1024)) ++ (['\\', 'u'] ++ hex4 (56320 + n % 1024))
  else [c]

/-- JSON string-body escaping. -/
def escape (s : List Char) : List Char := s.flatMap escapeChar

/-- A JSON string literal. -/
def quoteStr (s : List Char) : List Char := '\"' :: (escape s ++ ['\"'])

/-- Serialization of one field value. -/
def serializeVal : JVal → List Char
  | .null => ['n', 'u', 'l', 'l']
  | .str s => quoteStr s

/-- One `"key": value` member, with `json.dumps`'s default `': '`
key separator. -/
def serializeItem (kv : List Char × JVal) : List Char :=
  quoteStr kv.1 ++ ':' :: ' ' :: serializeVal kv.2

/-- Members joined by the default `', '` item separator. -/
def serializeItems : RecordFields → List Char
  | [] => []
  | [kv] => serializeItem kv
  | kv :: rest => serializeItem kv ++ ',' :: ' ' :: serializeItems rest

/-- The line `content = json.dumps(data, sort_keys=True)` of
`create_notifications`. -/
def json_dumps_sorted (r : RecordFields) : List Char :=
  lbrace :: (serializeItems (canonicalFields r) ++ [rbrace])

/-- The dedup key derived from a candidate record (see the section
comment: the SHA-256 hexdigest step is deterministic in this string). -/
def content_hash (r : RecordFields) : List Char := json_dumps_sorted r

/-- DatabaseOperations.create_notifications: iterate over the batch; for
each record compute the fingerprint, query whether the
`(source_id, content_hash)` pair already exists (the session autoflushes,
so pairs added earlier in the same batch are visible), skip it if so and
otherwise add the row.  The state is the set of `(source_id,
content_hash)` pairs as an ordered list; the second component of the
result is the number of rows stored (`len(result)` in the source). -/
def create_notifications (db : List (Nat × List Char)) (sid : Nat) :
    List RecordFields → List (Nat × List Char) × Nat
  | [] => (db, 0)
  | r :: rest =>
    let h := content_hash r
    if (sid, h) ∈ db then create_notifications db sid rest
    else
      let res := create_notifications (db ++ [(sid, h)]) sid rest
      (res.1, res.2 + 1)

/-! ## A decoder for the canonical serialization.

The decoder below is a proof device, not an embedding of repository code:
it inverts `json_dumps_sorted`, establishing that the canonical
serialization — and hence the fingerprint — is injective on canonical
field lists. -/

/-- Value of one lowercase hex digit character. -/
def hexVal (c : Char) : Option Nat :=
  if 48 ≤ c.toNat ∧ c.toNat ≤ 57 then some (c.toNat - 48)
  else if 97 ≤ c.toNat ∧ c.toNat ≤ 102 then some (c.toNat - 87)
  else none

/-- Value of four hex digit characters. -/
def hex4Val (a b c d : Char) : Option Nat :=
  (hexVal a).bind fun x => (hexVal b).bind fun y => (hexVal c).bind fun z =>
    (hexVal d).map fun w => x * 4096 + y * 256 + z * 16 + w

/-- Decode the low-surrogate half following a high surrogate `hi`. -/
def decodeLowSurrogate (hi : Nat) (l : List Char) : Option (Char × List Char) :=
  match l with
  | b1 :: u1 :: a :: b :: c :: d :: rest =>
    if b1 = '\\' ∧ u1 = 'u' then
      (hex4Val a b c d).bind fun m =>
        if 56320 ≤ m ∧ m < 57344 then
          some (Char.ofNat (65536 + (hi - 55296) * 1024 + (m - 56320)), rest)
        else none
    else none
  | _ => none

/-- Decode the four hex digits after a backslash-u, pairing surrogates. -/
def decodeUnicodeEscape (l : List Char) : Option (Char × List Char) :=
  match l with
  | a :: b :: c :: d :: rest =>
    (hex4Val a b c d).bind fun n =>
      if 55296 ≤ n ∧ n < 56320 then decodeLowSurrogate n rest
      else if 56320 ≤ n ∧ n < 57344 then none
      else some (Char.ofNat n, rest)
  | _ => none

/-- Decode one escape sequence (the part after the backslash). -/
def decodeEscape (l : List Char) : Option (Char × List Char) :=
  match l with
  | [] => none
  | e :: rest =>
    if e = '\"' then some ('\"', rest)
    else if e = '\\' then some ('\\', rest)
    else if e = 'b' then some (Char.ofNat 8, rest)
    else if e = 't' then some (Char.ofNat 9, rest)
    else if e = 'n' then some (Char.ofNat 10, rest)
    else if e = 'f' then some (Char.ofNat 12, rest)
    else if e = 'r' then some (Char.ofNat 13, rest)
    else if e = 'u' then decodeUnicodeEscape rest
    else none

/-- Decode an escaped JSON string body up to its closing quote, with a
fuel bound on the number of decoded characters; returns the decoded
characters and the input remaining after the quote. -/
def decodeStringF : Nat → List Char → Option (List Char × List Char)
  | 0, _ => none
  | fuel + 1, l =>
    match l with
    | [] => none
    | c :: rest =>
      if c = '\"' then some ([], rest)
      else if c = '\\' then
        (decodeEscape rest).bind fun p =>
          (decodeStringF fuel p.2).map (fun q => (p.1 :: q.1, q.2))
      else (decodeStringF fuel rest).map (fun q => (c :: q.1, q.2))

/-- String-body decoder (the input length bounds the decoded length). -/
def decodeString (l : List Char) : Option (List Char × List Char) :=
  decodeStringF l.length l

/-- Decode one serialized field value (`null` or a string literal). -/
def decodeVal (l : List Char) : Option (JVal × List Char) :=
  if l.take 4 = ['n', 'u', 'l', 'l'] then some (.null, l.drop 4)
  else
    match l with
    | c :: rest =>
      if c = '\"' then (decodeString rest).map (fun p => (JVal.str p.1, p.2))
      else none
    | [] => none

/-- Decode one `"key": value` member. -/
def decodeItem (l : List Char) : Option ((List Char × JVal) × List Char) :=
  match l with
  | [] => none
  | c :: rest =>
    if c = '\"' then
      (decodeString rest).bind fun p =>
        match p.2 with
        | c1 :: c2 :: rest3 =>
          if c1 = ':' ∧ c2 = ' ' then
            (decodeVal rest3).map fun q => ((p.1, q.1), q.2)
          else none
        | _ => none
    else none

/-- Decode a nonempty `', '`-separated member sequence; `fuel` bounds the
member count. -/
def decodeItems : Nat → List Char → Option (RecordFields × List Char)
  | 0, _ => none
  | fuel + 1, l =>
    (decodeItem l).bind fun p =>
      match p.2 with
      | d1 :: d2 :: rest5 =>
        if d1 = ',' ∧ d2 = ' ' then
          (decodeItems fuel rest5).map (fun q => (p.1 :: q.1, q.2))
        else some ([p.1], p.2)
      | _ => some ([p.1], p.2)

/-- Decode a whole serialized object. -/
def decodeObj (l : List Char) : Option RecordFields :=
  match l with
  | [] => none
  | c :: rest =>
    if c = lbrace then
      if rest = [rbrace] then some []
      else
        match decodeItems rest.length rest with
        | some (items, [e]) => if e = rbrace then some items else none
        | _ => none
    else none

/-! ## Tabular extraction (src/app/scrapers/table_scraper.py, TableScraper).

A loaded table page is modelled as its rows of cell texts (the text
content BeautifulSoup returns per `th`/`td`), the first row being the
header row that `_extract_headers` reads. -/

/-- ASCII lowercasing of one character (Python `str.lower()` on the ASCII
texts involved). -/
def lowerChar (c : Char) : Char :=
  if 65 ≤ c.toNat ∧ c.toNat ≤ 90 then Char.ofNat (c.toNat + 32) else c

/-- ASCII lowercasing of a character list. -/
def lowerStr (s : List Char) : List Char := s.map lowerChar

/-- ASCII lowercasing of a string. -/
def lower (s : String) : String := String.mk (lowerStr s.data)

/-- TableScraper._extract_headers (lines 60-80): each header cell text is
lowercased and then passed through the per-source `header_mapping` alias
table (`self.header_mapping.get(header, header)`). -/
def extract_headers (header_mapping : List (String × String)) (headerRow : List String) :
    List String :=
  headerRow.map (fun h =>
    let hl := lower h
    (header_mapping.lookup hl).getD hl)

/-- TableScraper._extract_rows: all rows after the header row whose cells
are not all empty (`if any(cell for cell in row)`). -/
def extract_rows (tableRows : List (List String)) : List (List String) :=
  (tableRows.drop 1).filter (fun row => row.any (fun cell => cell ≠ ""))

/-- Lookup in `dict(zip(headers, row))`: `zip` truncates to the shorter
list and a repeated key keeps its last value. -/
def rowGet (headers row : List String) (k : String) : Option String :=
  ((headers.zip row).reverse.lookup k)

/-- Python `a or b` on optional strings: `b` when `a` is `None` or the
empty (falsy) string. -/
def pyOr (a b : Option String) : Option String :=
  match a with
  | some v => if v = "" then b else some v
  | none => b

/-- Decimal digit value of a character. -/
def digitVal (c : Char) : Option Nat :=
  if 48 ≤ c.toNat ∧ c.toNat ≤ 57 then some (c.toNat - 48) else none

/-- Tokens of the `datetime.strptime` format strings `_parse_date` tries:
a literal character, day `%d`, month number `%m`, four- and two-digit
years `%Y`/`%y`, abbreviated and full month names `%b`/`%B`, and a
whitespace run (strptime matches any whitespace in the format as one or
more whitespace characters). -/
inductive FTok where
  | lit : Char → FTok
  | D | M | Y4 | Y2 | Bshort | Bfull | WS
  deriving Repr, DecidableEq

/-- Partially filled day/month/year fields during a format match. -/
structure DMY where
  day : Option Nat := none
  month : Option Nat := none
  year : Option Nat := none
  deriving Repr, DecidableEq

/-- English month-name abbreviations, as matched (case-insensitively) by
`%b`. -/
def monthAbbrevs : List (List Char × Nat) :=
  [("jan".data, 1), ("feb".data, 2), ("mar".data, 3), ("apr".data, 4),
   ("may".data, 5), ("jun".data, 6), ("jul".data, 7), ("aug".data, 8),
   ("sep".data, 9), ("oct".data, 10), ("nov".data, 11), ("dec".data, 12)]

/-- Full English month names, as matched (case-insensitively) by `%B`. -/
def monthFulls : List (List Char × Nat) :=
  [("january".data, 1), ("february".data, 2), ("march".data, 3), ("april".data, 4),
   ("may".data, 5), ("june".data, 6), ("july".data, 7), ("august".data, 8),
   ("september".data, 9), ("october".data, 10), ("november".data, 11), ("december".data, 12)]

/-- Match one month name from the table at the head of the input
(no two table entries can match at the same position, so first match is
the match). -/
def findMonth : List (List Char × Nat) → List Char → Option (Nat × List Char)
  | [], _ => none
  | (nm, num) :: restNames, s =>
    if lowerStr (s.take nm.length) = nm then some (num, s.drop nm.length)
    else findMonth restNames s

/-- Match a token list against the input the way the regex `strptime`
compiles a format does, including the regex's local backtracking between
the two-digit and one-digit day/month alternatives; a full match of the
whole input is required (`strptime` rejects trailing input).  `%d`
accepts `01`-`31`, `1`-`9` or a space-padded digit; `%m` accepts
`01`-`12` or `1`-`9`; `%Y` exactly four digits; `%y` two digits mapped to
2000-2068/1969-1999. -/
def matchToks : List FTok → List Char → DMY → Option DMY
  | [], s, acc => if s = [] then some acc else none
  | .lit c :: toks, s, acc =>
    match s with
    | c' :: rest => if c' = c then matchToks toks rest acc else none
    | [] => none
  | .WS :: toks, s, acc =>
    match s with
    | c :: rest =>
      if isPySpace c then matchToks toks (rest.dropWhile isPySpace) acc else none
    | [] => none
  | .D :: toks, s, acc =>
    (match s with
     | a :: b :: rest =>
       match digitVal a, digitVal b with
       | some x, some y =>
         let v := x * 10 + y
         if 1 ≤ v ∧ v ≤ 31 then matchToks toks rest { acc with day := some v } else none
       | _, _ => none
     | _ => none) <|>
    (match s with
     | a :: rest =>
       match digitVal a with
       | some x => if 1 ≤ x then matchToks toks rest { acc with day := some x } else none
       | none => none
     | [] => none) <|>
    (match s with
     | c' :: a :: rest =>
       if c' = ' ' then
         match digitVal a with
         | some x => if 1 ≤ x then matchToks toks rest { acc with day := some x } else none
         | none => none
       else none
     | _ => none)
  | .M :: toks, s, acc =>
    (match s with
     | a :: b :: rest =>
       match digitVal a, digitVal b with
       | some x, some y =>
         let v := x * 10 + y
         if 1 ≤ v ∧ v ≤ 12 then matchToks toks rest { acc with month := some v } else none
       | _, _ => none
     | _ => none) <|>
    (match s with
     | a :: rest =>
       match digitVal a with
       | some x => if 1 ≤ x then matchToks toks rest { acc with month := some x } else none
       | none => none
     | [] => none)
  | .Y4 :: toks, s, acc =>
    (match s with
     | a :: b :: c :: d :: rest =>
       match digitVal a, digitVal b, digitVal c, digitVal d with
       | some x, some y, some z, some w =>
         matchToks toks rest { acc with year := some (x * 1000 + y * 100 + z * 10 + w) }
       | _, _, _, _ => none
     | _ => none)
  | .Y2 :: toks, s, acc =>
    (match s with
     | a :: b :: rest =>
       match digitVal a, digitVal b with
       | some x, some y =>
         let v := x * 10 + y
         matchToks toks rest
           { acc with year := some (if v ≤ 68 then 2000 + v else 1900 + v) }
       | _, _ => none
     | _ => none)
  | .Bshort :: toks, s, acc =>
    (match findMonth monthAbbrevs s with
     | some (num, rest) => matchToks toks rest { acc with month := some num }
     | none => none)
  | .Bfull :: toks, s, acc =>
    (match findMonth monthFulls s with
     | some (num, rest) => matchToks toks rest { acc with month := some num }
     | none => none)

/-- Gregorian leap year. -/
def isLeap (y : Nat) : Bool := (y % 4 = 0 && y % 100 ≠ 0) || y % 400 = 0

/-- Days in a month. -/
def daysInMonth (y m : Nat) : Nat :=
  if m = 2 then (if isLeap y then 29 else 28)
  else if m = 4 ∨ m = 6 ∨ m = 9 ∨ m = 11 then 30
  else 31

/-- The validity check Python's `datetime.date(year, month, day)`
constructor performs; an invalid combination raises `ValueError`, which
`_parse_date` treats as a failed parse. -/
def mkDate (y m d : Nat) : Option (Nat × Nat × Nat) :=
  if 1 ≤ y ∧ y ≤ 9999 ∧ 1 ≤ m ∧ m ≤ 12 ∧ 1 ≤ d ∧ d ≤ daysInMonth y m then
    some (y, m, d)
  else none

/-- Completed field set turned into a date, with strptime's defaults
(1900-01-01) for any field a format does not set. -/
def dmyToDate (acc : DMY) : Option (Nat × Nat × Nat) :=
  mkDate (acc.year.getD 1900) (acc.month.getD 1) (acc.day.getD 1)

/-- The format list of TableScraper._parse_date (lines 92-97), in source
order. -/
def parseFormats : List (List FTok) :=
  [[.D, .lit '-', .M, .lit '-', .Y4], [.D, .lit '/', .M, .lit '/', .Y4],
   [.Y4, .lit '-', .M, .lit '-', .D], [.Y4, .lit '/', .M, .lit '/', .D],
   [.D, .lit '-', .M, .lit '-', .Y2], [.D, .lit '/', .M, .lit '/', .Y2],
   [.Y2, .lit '-', .M, .lit '-', .D], [.Y2, .lit '/', .M, .lit '/', .D],
   [.D, .WS, .Bshort, .WS, .Y4], [.D, .WS, .Bfull, .WS, .Y4],
   [.Bshort, .WS, .D, .lit ',', .WS, .Y4], [.Bfull, .WS, .D, .lit ',', .WS, .Y4]]

/-- Try each format in order; a format whose match or date construction
fails (`ValueError`) falls through to the next. -/
def tryFormats : List (List FTok) → List Char → Option (Nat × Nat × Nat)
  | [], _ => none
  | f :: fs, s =>
    match matchToks f s {} with
    | some acc =>
      match dmyToDate acc with
      | some d => some d
      | none => tryFormats fs s
    | none => tryFormats fs s

/-- Exactly `k` decimal digits from the head of the input, with their
value. -/
def grabDigits : Nat → List Char → Option (Nat × List Char)
  | 0, s => some (0, s)
  | k + 1, s =>
    match s with
    | c :: rest =>
      match digitVal c with
      | some d =>
        match grabDigits k rest with
        | some (v, rest') => some (d * 10 ^ k + v, rest')
        | none => none
      | none => none
    | [] => none

/-- A date separator of the fallback regex character class. -/
def sepOk (c : Char) : Bool := c = '-' || c = '/'

/-- The fallback regex — one or two digits, a dash-or-slash separator,
one or two digits, a separator, then two to four digits — matched at the
current position, with the regex's greedy-first backtracking on each
group width. -/
def matchDatePat (s : List Char) : Option (Nat × Nat × Nat) :=
  let year : Nat → List Char → Option (Nat × Nat × Nat) := fun d rest =>
    (match grabDigits 4 rest with
     | some (y, _) => some (d, 0, y)
     | none => none) <|>
    (match grabDigits 3 rest with
     | some (y, _) => some (d, 0, y)
     | none => none) <|>
    (match grabDigits 2 rest with
     | some (y, _) => some (d, 0, y)
     | none => none)
  let month : Nat → List Char → Option (Nat × Nat × Nat) := fun d rest =>
    (match grabDigits 2 rest with
     | some (m, rest2) =>
       match rest2 with
       | c :: rest3 => if sepOk c then (year d rest3).map (fun p => (p.1, m, p.2.2)) else none
       | [] => none
     | none => none) <|>
    (match grabDigits 1 rest with
     | some (m, rest2) =>
       match rest2 with
       | c :: rest3 => if sepOk c then (year d rest3).map (fun p => (p.1, m, p.2.2)) else none
       | [] => none
     | none => none)
  let day : List Char → Option (Nat × Nat × Nat) := fun s =>
    (match grabDigits 2 s with
     | some (d, rest) =>
       match rest with
       | c :: rest2 => if sepOk c then month d rest2 else none
       | [] => none
     | none => none) <|>
    (match grabDigits 1 s with
     | some (d, rest) =>
       match rest with
       | c :: rest2 => if sepOk c then month d rest2 else none
       | [] => none
     | none => none)
  day s

/-- `re.search` of the fallback pattern: the leftmost position where it
matches. -/
def searchDatePat : List Char → Option (Nat × Nat × Nat)
  | [] => none
  | c :: rest =>
    match matchDatePat (c :: rest) with
    | some r => some r
    | none => searchDatePat rest

/-- TableScraper._parse_date (lines 82-119): `None` and falsy input give
`None`; otherwise the stripped string is tried against the format list,
then against the fallback regex whose two-digit years get 2000 added
below 50 and 1900 otherwise; `date(...)` validation failure in the
fallback path is swallowed to `None`. -/
def parse_date (dateStr : Option String) : Option (Nat × Nat × Nat) :=
  match dateStr with
  | none => none
  | some ds0 =>
    if ds0 = "" then none
    else
      let ds := pyStrip ds0.data
      match tryFormats parseFormats ds with
      | some d => some d
      | none =>
        match searchDatePat ds with
        | none => none
        | some (d, m, yraw) =>
          let y := if yraw < 100 then (if yraw < 50 then yraw + 2000 else yraw + 1900) else yraw
          mkDate y m d

/-- TableScraper._process_row (lines 121-147).  The title comes from the
falsy-or chain over `title`/`description`/`tender_name`; a missing or
falsy title drops the row (`return None`).  `tender_id` takes the
`tender_id`-or-`ref_no` chain, `location` and `category` are plain
`dict.get` lookups, and the two dates run the `or`-chained cell through
`_parse_date`.  The Python debug payloads `raw_content=str(row_data)` and
`extracted_data=row_data` are outside this model (`raw_content := none`).
-/
def process_row (headers row : List String) : Option NotificationData :=
  let get := rowGet headers row
  match pyOr (pyOr (get "title") (get "description")) (get "tender_name") with
  | none => none
  | some title =>
    if title = "" then none
    else
      some { title := title
             tender_id := pyOr (get "tender_id") (get "ref_no")
             location := get "location"
             category := get "category"
             start_date := parse_date (pyOr (get "start_date") (get "date_of_advertisement"))
             end_date := parse_date (pyOr (get "end_date") (get "last_date"))
             raw_content := none }

/-- TableScraper.extract_notifications (lines 18-43): headers from the
first row, data rows after it, one notification per row that
`_process_row` accepts. -/
def table_extract_notifications (header_mapping : List (String × String))
    (tableRows : List (List String)) : List NotificationData :=
  let headers := extract_headers header_mapping (tableRows.headD [])
  (extract_rows tableRows).filterMap (fun row => process_row headers row)

/-- A response with two separate brace-delimited spans and no code fence,
used to compare the greedy capture against the spec's first-span reading. -/
def exampleResponse : List Char :=
  "a ".data ++ [lbrace] ++ "\"x\": 1".data ++ [rbrace] ++ " b ".data
    ++ [lbrace] ++ "\"y\": 2".data ++ [rbrace] ++ " c".data

/-! ## Theorems -/

/-- C2: the specification says idle eviction never reduces the pool below
one retained instance, and the code's own comment (`# Keep at least one
browser`) states the same intent; but the guard is evaluated during the
marking pass, before anything is removed, so a pool of two browsers that
are both idle beyond the threshold has both marked (2 > 1 holds for each)
and both removed, leaving zero instances. -/
theorem C2_idle_eviction_empties_pool :
    (cleanup_idle_browsers ⟨[1, 2], [(1, 0), (2, 0)]⟩ 400 300) = ⟨[], []⟩ ∧
    (cleanup_idle_browsers ⟨[1, 2], [(1, 0), (2, 0)]⟩ 400 300).browsers.length < 1 := by
  constructor
  · rfl
  · decide

/-- C1 (counterexample): an attempt in which `get_browser_context` raises
runs only the `except` arm, which writes no ScrapingLog row — the log
count does not grow by one. -/
theorem C1_counterexample :
    ¬ ((scrape_source ⟨false, none, true, true⟩ 1 5 ⟨⟨0, 0, none, none, 0⟩, []⟩).logs.length
        = (⟨⟨0, 0, none, none, 0⟩, []⟩ : DBState).logs.length + 1) := by
  decide

/-- C1 (amended): an attempt writes exactly one RunOutcome (ScrapingLog)
row when context creation, extraction and both database writes all
complete without raising — this covers success, validation failure and
navigation failure, which are returned inside the ScrapingResult — and
writes no row at all when any of those steps raises an exception. -/
theorem C1_one_log_row_iff_no_exception (sc : ScrapeScenario) (sid now : Nat) (st : DBState) :
    (scrape_source sc sid now st).logs.length =
      st.logs.length +
        (if sc.ctxOk ∧ sc.extract.isSome ∧ sc.updateOk ∧ sc.logOk then 1 else 0) := by
  rcases sc with ⟨ctxOk, extract, updateOk, logOk⟩
  cases ctxOk <;> cases extract <;> cases updateOk <;> cases logOk <;>
    simp [scrape_source]

/-- C3 (counterexample): on a structure-validation failure the recorded
outcome is indeed an `error` row with zero records and the error counter
does grow by one, but the source's `last_success` timestamp is not left
unchanged: the UPDATE always assigns it, writing NULL on failure. -/
theorem C3_counterexample :
    ¬ (let st' := scrape_source ⟨true, some (scrape true false [] 0), true, true⟩ 9 10
          ⟨⟨3, 4, some 6, some 7, 6⟩, []⟩
       st'.logs = [⟨9, "error", 0, some "Page structure validation failed"⟩]
       ∧ st'.source.error_count = 5
       ∧ st'.source.last_success = some 7) := by
  decide

/-- C3 (amended): for a Source whose structure validation fails, the job
records one RunOutcome row with status `error` and zero records found,
increments the Source's error counter by exactly one, leaves the success
counter unchanged, and overwrites the last-success timestamp with NULL
(so it is unchanged only when it was already NULL). -/
theorem C3_validation_failure_effects (st : DBState) (sid now psz : Nat)
    (notifs : List NotificationData) :
    let st' := scrape_source ⟨true, some (scrape true false notifs psz), true, true⟩ sid now st
    st'.logs = st.logs ++ [⟨sid, "error", 0, some "Page structure validation failed"⟩]
    ∧ st'.source.error_count = st.source.error_count + 1
    ∧ st'.source.success_count = st.source.success_count
    ∧ st'.source.last_success = none := by
  simp [scrape_source, scrape, update_source_status]

/-- C7 (counterexample): the source-status update and the log write are
separate sequential operations; when the log write raises after the
status update succeeded, the final state has the counters changed and no
new log row — neither "both applied" nor "neither applied" holds. -/
theorem C7_counterexample :
    ¬ (let st0 : DBState := ⟨⟨0, 0, none, none, 0⟩, []⟩
       let st' := scrape_source ⟨true, some (scrape true true [] 7), true, false⟩ 1 5 st0
       (st'.logs ≠ st0.logs ∧ st'.source ≠ st0.source) ∨ st' = st0) := by
  decide

/-- C7 (amended): the counter/timestamp update and the RunOutcome write
are not atomic — they are two independent sequential statements.  When
the log write raises after a successful status update, the attempt ends
with the status update applied (twice: the in-try update with the job's
result, then the handler's failure update) and no log row written, so a
partially applied state is observable. -/
theorem C7_log_failure_leaves_partial_update (st : DBState) (sid now : Nat)
    (r : ScrapingResult) :
    scrape_source ⟨true, some r, true, false⟩ sid now st =
      ⟨update_source_status (update_source_status st.source r.success now) false now,
       st.logs⟩ := by
  rfl

/-- The retry loop never makes more attempts than `max_retries` (given it
starts at or below it). -/
theorem call_loop_attempts_le (svc : Nat → Option String) (m d k : Nat) (hk : k ≤ m) :
    (call_loop svc m d k).2.2 ≤ m := by
  by_cases h : k < m
  · rw [call_loop]
    simp only [h, dif_pos]
    cases svc k with
    | some r => simpa using h
    | none =>
      by_cases h2 : k + 1 < m
      · have ih := call_loop_attempts_le svc m d (k + 1) (Nat.le_of_lt h2)
        rw [if_pos h2]
        exact ih
      · rw [if_neg h2]
        simp only []
        omega
  · rw [call_loop]
    simp only [h, dif_neg]
    simpa using hk
termination_by m - k

/-- C6: the network retry layer makes at most 3 attempts; a service that
fails the first two attempts and succeeds on the third completes
successfully after exactly the two backoff waits `retry_delay * 2 ^ 0`
and `retry_delay * 2 ^ 1` (base 2 seconds); a service that fails all
three attempts makes the call raise after the same two waits (the
exception the spec names `InferenceUnavailable`, modelled as the `none`
result). -/
theorem C6_retry_with_backoff :
    (∀ svc : Nat → Option String, ∀ r : String,
        svc 0 = none → svc 1 = none → svc 2 = some r →
        call_ollama_with_retry svc = (some r, [2 * 2 ^ 0, 2 * 2 ^ 1], 3))
    ∧ (∀ svc : Nat → Option String,
        svc 0 = none → svc 1 = none → svc 2 = none →
        call_ollama_with_retry svc = (none, [2 * 2 ^ 0, 2 * 2 ^ 1], 3))
    ∧ (∀ svc : Nat → Option String, (call_ollama_with_retry svc).2.2 ≤ 3) := by
  refine ⟨?_, ?_, ?_⟩
  · intro svc r h0 h1 h2
    unfold call_ollama_with_retry
    rw [call_loop, call_loop, call_loop]
    simp [h0, h1, h2]
  · intro svc h0 h1 h2
    unfold call_ollama_with_retry
    rw [call_loop, call_loop, call_loop]
    simp [h0, h1, h2]
  · intro svc
    exact call_loop_attempts_le svc 3 2 0 (by omega)

/-- C6 witness: concrete services exercising both hypotheses. -/
theorem C6_retry_with_backoff_witness :
    call_ollama_with_retry (fun n => if n = 2 then some "ok" else none)
        = (some "ok", [2, 4], 3)
    ∧ call_ollama_with_retry (fun _ => none) = (none, [2, 4], 3) := by
  constructor
  · have h := C6_retry_with_backoff.1 (fun n => if n = 2 then some "ok" else none) "ok"
      rfl rfl rfl
    simpa using h
  · have h := C6_retry_with_backoff.2.1 (fun _ => none) rfl rfl rfl
    simpa using h

/-- C10: content whose stripped length is below 50 characters (the empty
string included, via the `not content` disjunct) makes
`extract_notifications` return the empty list with zero external service
attempts made. -/
theorem C10_short_content_skips_llm (svc : Nat → Option String)
    (parse : String → List NotificationData) (content : List Char)
    (h : (pyStrip content).length < 50) :
    llm_extract_notifications svc parse content = ([], 0) := by
  unfold llm_extract_notifications
  rw [if_pos (Or.inr h)]

/-- C10 witness: a nine-character content string. -/
theorem C10_short_content_skips_llm_witness :
    (pyStrip "   tiny   ".data).length < 50
    ∧ llm_extract_notifications (fun _ => some "ignored") (fun _ => []) "   tiny   ".data
        = ([], 0) :=
  ⟨by decide,
   C10_short_content_skips_llm (fun _ => some "ignored") (fun _ => []) "   tiny   ".data
     (by decide)⟩

/-- C8 (counterexample): on the claimed table — header row
`Advertisement / Location / Date of Advertisement / Last Date`, one data
row — the extraction of the code produces NO record when the source has
no header-alias table (the default `header_mapping` is empty): the
lowercased header `advertisement` is none of the keys `title`,
`description`, `tender_name` that `_process_row` consults, so the row is
dropped for lack of a title. -/
theorem C8_counterexample :
    ¬ ((table_extract_notifications []
        [["Advertisement", "Location", "Date of Advertisement", "Last Date"],
         ["RFP for AMC", "Mumbai", "01-06-2025", "30-06-2025"]]).length = 1) := by
  decide

/-- C8 (amended): with a header-alias table mapping `advertisement` to
`title`, `date of advertisement` to `date_of_advertisement` and
`last date` to `last_date`, the claimed table yields exactly one record
with title `RFP for AMC`, location `Mumbai`, start date 2025-06-01 and
end date 2025-06-30 (the dates parsed by the `%d-%m-%Y` format). -/
theorem C8_with_alias_table :
    table_extract_notifications
      [("advertisement", "title"), ("date of advertisement", "date_of_advertisement"),
       ("last date", "last_date")]
      [["Advertisement", "Location", "Date of Advertisement", "Last Date"],
       ["RFP for AMC", "Mumbai", "01-06-2025", "30-06-2025"]]
    = [{ title := "RFP for AMC", tender_id := none, location := some "Mumbai",
         category := none, start_date := some (2025, 6, 1),
         end_date := some (2025, 6, 30), raw_content := none }] := by
  decide

/-- Ingestion only adds pairs: whatever was in the table stays there. -/
theorem create_notifications_mono (db : List (Nat × List Char)) (sid : Nat)
    (batch : List RecordFields) (x : Nat × List Char) (hx : x ∈ db) :
    x ∈ (create_notifications db sid batch).1 := by
  induction batch generalizing db with
  | nil => simpa [create_notifications] using hx
  | cons r rest ih =>
    simp only [create_notifications]
    by_cases h : (sid, content_hash r) ∈ db
    · rw [if_pos h]
      exact ih db hx
    · rw [if_neg h]
      exact ih (db ++ [(sid, content_hash r)]) (List.mem_append_left _ hx)

/-- After ingesting a batch, the pair of every batch record is present. -/
theorem create_notifications_mem_batch (db : List (Nat × List Char)) (sid : Nat)
    (batch : List RecordFields) (r : RecordFields) (hr : r ∈ batch) :
    (sid, content_hash r) ∈ (create_notifications db sid batch).1 := by
  induction batch generalizing db with
  | nil => cases hr
  | cons a rest ih =>
    simp only [create_notifications]
    rcases List.mem_cons.1 hr with h | h
    · subst h
      by_cases hm : (sid, content_hash r) ∈ db
      · rw [if_pos hm]
        exact create_notifications_mono db sid rest _ hm
      · rw [if_neg hm]
        exact create_notifications_mono _ sid rest _
          (List.mem_append_right _ (List.mem_singleton.2 rfl))
    · by_cases hm : (sid, content_hash a) ∈ db
      · rw [if_pos hm]
        exact ih db h
      · rw [if_neg hm]
        exact ih _ h

/-- When every batch record's pair is already present, ingestion skips
every record: it stores nothing and leaves the table unchanged. -/
theorem create_notifications_all_present (db : List (Nat × List Char)) (sid : Nat)
    (batch : List RecordFields) (h : ∀ r ∈ batch, (sid, content_hash r) ∈ db) :
    create_notifications db sid batch = (db, 0) := by
  induction batch with
  | nil => rfl
  | cons a rest ih =>
    simp only [create_notifications]
    rw [if_pos (h a (List.mem_cons_self a rest))]
    exact ih (fun r hr => h r (List.mem_cons_of_mem a hr))

/-- C4: ingesting the same candidate batch a second time, against the
table state the first ingest produced, stores zero new rows and leaves
the table unchanged — every already-present `(source, fingerprint)` pair
is skipped (the skip is an ordinary branch of the loop, not an error
path). -/
theorem C4_reingest_stores_zero (db : List (Nat × List Char)) (sid : Nat)
    (batch : List RecordFields) :
    create_notifications (create_notifications db sid batch).1 sid batch
      = ((create_notifications db sid batch).1, 0) :=
  create_notifications_all_present _ sid batch
    (fun r hr => create_notifications_mem_batch db sid batch r hr)

/-- Head of a non-nil `dropWhile` result falsifies the predicate. -/
theorem dropWhile_head_false {α : Type} (p : α → Bool) :
    ∀ (l : List α) (c : α) (rest : List α), l.dropWhile p = c :: rest → p c = false
  | [], c, rest, h => by simp [List.dropWhile] at h
  | a :: l, c, rest, h => by
    by_cases hp : p a
    · rw [List.dropWhile_cons_of_pos hp] at h
      exact dropWhile_head_false p l c rest h
    · rw [List.dropWhile_cons_of_neg hp] at h
      cases h
      simpa using hp

/-- The greedy brace capture returns the span running from the first
opening brace of the response to its last closing brace: the prefix
before the span has no opening brace, the span starts with an opening
and ends with a closing brace, and the suffix after it has no closing
brace. -/
theorem braceSpan_structure (s span : List Char) (h : braceSpan s = some span) :
    ∃ pre post, s = pre ++ span ++ post
      ∧ (∀ c ∈ pre, c ≠ lbrace)
      ∧ span.head? = some lbrace
      ∧ span.getLast? = some rbrace
      ∧ ∀ c ∈ post, c ≠ rbrace := by
  unfold braceSpan at h
  rcases hrest : s.dropWhile (· ≠ lbrace) with _ | ⟨c, tailCs⟩
  · rw [hrest] at h
    cases h
  · rw [hrest] at h
    simp only [] at h
    have hc : c = lbrace := by
      have := dropWhile_head_false (fun x => decide (x ≠ lbrace)) s c tailCs hrest
      simpa using this
    by_cases hmem : rbrace ∈ tailCs
    · rw [if_pos hmem] at h
      rcases hwrest : tailCs.reverse.dropWhile (· ≠ rbrace) with _ | ⟨d, wtail⟩
      · exfalso
        have hall : ∀ x ∈ tailCs.reverse, x ≠ rbrace := by
          intro x hx
          have := (List.dropWhile_eq_nil_iff).1 hwrest x hx
          simpa using this
        exact hall rbrace (List.mem_reverse.2 hmem) rfl
      · have hd : d = rbrace := by
          have := dropWhile_head_false (fun x => decide (x ≠ rbrace)) tailCs.reverse d wtail hwrest
          simpa using this
        have hsplit : tailCs.reverse.takeWhile (· ≠ rbrace)
            ++ tailCs.reverse.dropWhile (· ≠ rbrace) = tailCs.reverse :=
          List.takeWhile_append_dropWhile _ _
        rw [hwrest] at hsplit
        set wpre := tailCs.reverse.takeWhile (· ≠ rbrace) with hwpre
        set mid := wtail.reverse ++ [d] with hmid
        have htail : tailCs = mid ++ wpre.reverse := by
          have h2 := congrArg List.reverse hsplit
          simp only [List.reverse_append, List.reverse_cons, List.reverse_reverse] at h2
          rw [← h2, hmid]
        have hlenmid : (mid ++ wpre.reverse).length - wpre.length = mid.length := by
          simp
        have htake : tailCs.take (tailCs.length - wpre.length) = mid := by
          rw [htail, hlenmid]
          exact List.take_left _ _
        have hspan : span = c :: mid := by
          rw [htake] at h
          exact (Option.some.inj h).symm
        refine ⟨s.takeWhile (· ≠ lbrace), wpre.reverse, ?_, ?_, ?_, ?_, ?_⟩
        · have hs : s.takeWhile (· ≠ lbrace) ++ (c :: tailCs) = s := by
            rw [← hrest]
            exact List.takeWhile_append_dropWhile _ _
          calc s = s.takeWhile (· ≠ lbrace) ++ (c :: tailCs) := hs.symm
            _ = s.takeWhile (· ≠ lbrace) ++ span ++ wpre.reverse := by
                rw [htail, hspan]
                simp
        · intro x hx
          have := List.mem_takeWhile_imp hx
          simpa using this
        · rw [hspan, hc]
          rfl
        · rw [hspan, hmid, hd]
          have : (c :: (wtail.reverse ++ [rbrace])) = (c :: wtail.reverse) ++ rbrace :: [] := by
            simp
          rw [this, List.getLast?_append_cons]
          rfl
        · intro x hx
          have hx2 : x ∈ wpre := List.mem_reverse.1 hx
          have := List.mem_takeWhile_imp hx2
          simpa using this
    · rw [if_neg hmem] at h
      cases h

/-- C9 (counterexample): on a fence-free response holding two separate
brace spans, the spec's "first top-level brace-delimited span" would be
the first balanced span, but `_extract_json` returns the greedy capture
running through the LAST closing brace of the whole response. -/
theorem C9_counterexample :
    firstTopLevelBraceSpan exampleResponse
        = some ([lbrace] ++ "\"x\": 1".data ++ [rbrace])
    ∧ extract_json exampleResponse ≠ [lbrace] ++ "\"x\": 1".data ++ [rbrace] := by
  decide

/-- C9 (amended): the span-selection precedence holds with the brace
fallback corrected: a present fenced block wins (its contents
whitespace-trimmed); otherwise, when the response has an opening brace
with some closing brace after it, the selected span runs from the FIRST
opening brace through the LAST closing brace (not the first balanced
span); otherwise the whitespace-stripped (not verbatim) raw text is
taken. -/
theorem C9_span_precedence (s : List Char) :
    (∀ c, fencedContent s = some c → extract_json s = c)
    ∧ (fencedContent s = none → ∀ span, braceSpan s = some span →
        extract_json s = span
        ∧ ∃ pre post, s = pre ++ span ++ post
            ∧ (∀ c ∈ pre, c ≠ lbrace)
            ∧ span.head? = some lbrace
            ∧ span.getLast? = some rbrace
            ∧ ∀ c ∈ post, c ≠ rbrace)
    ∧ (fencedContent s = none → braceSpan s = none → extract_json s = pyStrip s) := by
  refine ⟨?_, ?_, ?_⟩
  · intro c hc
    unfold extract_json
    rw [hc]
  · intro hf span hb
    refine ⟨?_, braceSpan_structure s span hb⟩
    unfold extract_json
    rw [hf, hb]
  · intro hf hb
    unfold extract_json
    rw [hf, hb]

/-- C9 witness: the precedence theorem applied to the concrete two-span
response, with both hypotheses discharged by evaluation. -/
theorem C9_span_precedence_witness :
    extract_json exampleResponse
        = [lbrace] ++ "\"x\": 1".data ++ [rbrace] ++ " b ".data
            ++ [lbrace] ++ "\"y\": 2".data ++ [rbrace]
    ∧ ∃ pre post, exampleResponse
          = pre ++ ([lbrace] ++ "\"x\": 1".data ++ [rbrace] ++ " b ".data
              ++ [lbrace] ++ "\"y\": 2".data ++ [rbrace]) ++ post
        ∧ (∀ c ∈ pre, c ≠ lbrace)
        ∧ ([lbrace] ++ "\"x\": 1".data ++ [rbrace] ++ " b ".data
            ++ [lbrace] ++ "\"y\": 2".data ++ [rbrace]).head? = some lbrace
        ∧ ([lbrace] ++ "\"x\": 1".data ++ [rbrace] ++ " b ".data
            ++ [lbrace] ++ "\"y\": 2".data ++ [rbrace]).getLast? = some rbrace
        ∧ ∀ c ∈ post, c ≠ rbrace := by
  have h := (C9_span_precedence exampleResponse).2.1 (by decide)
    ([lbrace] ++ "\"x\": 1".data ++ [rbrace] ++ " b ".data
      ++ [lbrace] ++ "\"y\": 2".data ++ [rbrace]) (by decide)
  simpa using h

/-- Decoding inverts the hex digit encoding. -/
theorem hexVal_hexDigit (n : Nat) (h : n < 16) : hexVal (hexDigit n) = some n := by
  interval_cases n <;> decide

/-- Decoding inverts the four-digit hex encoding. -/
theorem hex4Val_hexDigit (n : Nat) (h : n < 65536) :
    hex4Val (hexDigit (n / 4096 % 16)) (hexDigit (n / 256 % 16))
      (hexDigit (n / 16 % 16)) (hexDigit (n % 16)) = some n := by
  rw [hex4Val, hexVal_hexDigit _ (Nat.mod_lt _ (by omega)),
    hexVal_hexDigit _ (Nat.mod_lt _ (by omega)), hexVal_hexDigit _ (Nat.mod_lt _ (by omega)),
    hexVal_hexDigit _ (Nat.mod_lt _ (by omega))]
  simp only [Option.some_bind, Option.map_some', Option.some.injEq]
  have h16 : n / 16 % 16 * 16 + n % 16 = n % 256 := by omega
  have h256 : n / 256 % 16 * 256 + n % 256 = n % 4096 := by omega
  have h4096 : n / 4096 % 16 * 4096 + n % 4096 = n := by omega
  omega

/-- One escaped character prepended to a decodable tail decodes to the
character consed onto the tail's decoding. -/
theorem decodeStringF_escapeChar (c : Char) (t s rest : List Char) (fuel : Nat)
    (ht : decodeStringF fuel t = some (s, rest)) :
    decodeStringF (fuel + 1) (escapeChar c ++ t) = some (c :: s, rest) := by
  have hesc : ∀ X : List Char, decodeStringF (fuel + 1) ('\\' :: X)
      = (decodeEscape X).bind fun p =>
          (decodeStringF fuel p.2).map (fun q => (p.1 :: q.1, q.2)) := fun _ => rfl
  have hlit : ∀ (x : Char) (X : List Char), ¬ x = '\"' → ¬ x = '\\' →
      decodeStringF (fuel + 1) (x :: X)
        = (decodeStringF fuel X).map (fun q => (x :: q.1, q.2)) := by
    intro x X h1 h2
    have hbody : decodeStringF (fuel + 1) (x :: X)
        = (if x = '\"' then some ([], X)
           else if x = '\\' then
             (decodeEscape X).bind fun p =>
               (decodeStringF fuel p.2).map (fun q => (p.1 :: q.1, q.2))
           else (decodeStringF fuel X).map (fun q => (x :: q.1, q.2))) := rfl
    rw [hbody, if_neg h1, if_neg h2]
  rw [escapeChar]
  by_cases h1 : c = '\"'
  · subst h1
    rw [if_pos rfl]
    have e1 : (['\\', '\"'] : List Char) ++ t = '\\' :: '\"' :: t := rfl
    rw [e1, hesc]
    have e2 : decodeEscape ('\"' :: t) = some ('\"', t) := rfl
    rw [e2, Option.some_bind, ht, Option.map_some']
  · rw [if_neg h1]
    by_cases h2 : c = '\\'
    · subst h2
      rw [if_pos rfl]
      have e1 : (['\\', '\\'] : List Char) ++ t = '\\' :: '\\' :: t := rfl
      rw [e1, hesc]
      have e2 : decodeEscape ('\\' :: t) = some ('\\', t) := rfl
      rw [e2, Option.some_bind, ht, Option.map_some']
    · rw [if_neg h2]
      by_cases h3 : c.toNat = 8
      · rw [if_pos h3]
        have e1 : (['\\', 'b'] : List Char) ++ t = '\\' :: 'b' :: t := rfl
        rw [e1, hesc]
        have e2 : decodeEscape ('b' :: t) = some (Char.ofNat 8, t) := rfl
        rw [e2, Option.some_bind, ht, Option.map_some']
        have : Char.ofNat 8 = c := by rw [← h3, Char.ofNat_toNat]
        rw [this]
      · rw [if_neg h3]
        by_cases h4 : c.toNat = 9
        · rw [if_pos h4]
          have e1 : (['\\', 't'] : List Char) ++ t = '\\' :: 't' :: t := rfl
          rw [e1, hesc]
          have e2 : decodeEscape ('t' :: t) = some (Char.ofNat 9, t) := rfl
          rw [e2, Option.some_bind, ht, Option.map_some']
          have : Char.ofNat 9 = c := by rw [← h4, Char.ofNat_toNat]
          rw [this]
        · rw [if_neg h4]
          by_cases h5 : c.toNat = 10
          · rw [if_pos h5]
            have e1 : (['\\', 'n'] : List Char) ++ t = '\\' :: 'n' :: t := rfl
            rw [e1, hesc]
            have e2 : decodeEscape ('n' :: t) = some (Char.ofNat 10, t) := rfl
            rw [e2, Option.some_bind, ht, Option.map_some']
            have : Char.ofNat 10 = c := by rw [← h5, Char.ofNat_toNat]
            rw [this]
          · rw [if_neg h5]
            by_cases h6 : c.toNat = 12
            · rw [if_pos h6]
              have e1 : (['\\', 'f'] : List Char) ++ t = '\\' :: 'f' :: t := rfl
              rw [e1, hesc]
              have e2 : decodeEscape ('f' :: t) = some (Char.ofNat 12, t) := rfl
              rw [e2, Option.some_bind, ht, Option.map_some']
              have : Char.ofNat 12 = c := by rw [← h6, Char.ofNat_toNat]
              rw [this]
            · rw [if_neg h6]
              by_cases h7 : c.toNat = 13
              · rw [if_pos h7]
                have e1 : (['\\', 'r'] : List Char) ++ t = '\\' :: 'r' :: t := rfl
                rw [e1, hesc]
                have e2 : decodeEscape ('r' :: t) = some (Char.ofNat 13, t) := rfl
                rw [e2, Option.some_bind, ht, Option.map_some']
                have : Char.ofNat 13 = c := by rw [← h7, Char.ofNat_toNat]
                rw [this]
              · rw [if_neg h7]
                by_cases h8 : c.toNat < 32 ∨ 126 < c.toNat
                · rw [if_pos h8]
                  by_cases h9 : c.toNat < 65536
                  · rw [if_pos h9]
                    have hvalid : c.toNat < 55296 ∨ (57343 < c.toNat ∧ c.toNat < 1114112) := c.valid
                    have e1 : (['\\', 'u'] ++ hex4 c.toNat) ++ t
                        = '\\' :: 'u' :: (hexDigit (c.toNat / 4096 % 16)
                            :: hexDigit (c.toNat / 256 % 16) :: hexDigit (c.toNat / 16 % 16)
                            :: hexDigit (c.toNat % 16) :: t) := by
                      rw [hex4]
                      rfl
                    rw [e1, hesc]
                    have e2 : ∀ a b e d : Char, ∀ X : List Char,
                        decodeEscape ('u' :: (a :: b :: e :: d :: X))
                          = (hex4Val a b e d).bind fun n =>
                              if 55296 ≤ n ∧ n < 56320 then decodeLowSurrogate n X
                              else if 56320 ≤ n ∧ n < 57344 then none
                              else some (Char.ofNat n, X) := fun _ _ _ _ _ => rfl
                    rw [e2, hex4Val_hexDigit c.toNat h9, Option.some_bind]
                    rw [if_neg (by omega), if_neg (by omega)]
                    rw [Option.some_bind, ht, Option.map_some', Char.ofNat_toNat]
                  · rw [if_neg h9]
                    have hvalid : c.toNat < 55296 ∨ (57343 < c.toNat ∧ c.toNat < 1114112) := c.valid
                    have hk : c.toNat - 65536 ≤ 1048575 := by omega
                    simp only []
                    set k := c.toNat - 65536 with hkdef
                    have hn1 : 55296 + k / 1024 < 65536 := by omega
                    have hn2 : 56320 + k % 1024 < 65536 := by
                      have := Nat.mod_lt k (show 0 < 1024 by omega)
                      omega
                    have e1 : ((['\\', 'u'] ++ hex4 (55296 + k / 1024))
                          ++ (['\\', 'u'] ++ hex4 (56320 + k % 1024))) ++ t
                        = '\\' :: 'u' :: (hexDigit ((55296 + k / 1024) / 4096 % 16)
                            :: hexDigit ((55296 + k / 1024) / 256 % 16)
                            :: hexDigit ((55296 + k / 1024) / 16 % 16)
                            :: hexDigit ((55296 + k / 1024) % 16)
                            :: ('\\' :: 'u' :: (hexDigit ((56320 + k % 1024) / 4096 % 16)
                                :: hexDigit ((56320 + k % 1024) / 256 % 16)
                                :: hexDigit ((56320 + k % 1024) / 16 % 16)
                                :: hexDigit ((56320 + k % 1024) % 16) :: t))) := by
                      rw [hex4, hex4]
                      rfl
                    rw [e1, hesc]
                    have e2 : ∀ a b e d : Char, ∀ X : List Char,
                        decodeEscape ('u' :: (a :: b :: e :: d :: X))
                          = (hex4Val a b e d).bind fun n =>
                              if 55296 ≤ n ∧ n < 56320 then decodeLowSurrogate n X
                              else if 56320 ≤ n ∧ n < 57344 then none
                              else some (Char.ofNat n, X) := fun _ _ _ _ _ => rfl
                    rw [e2, hex4Val_hexDigit _ hn1, Option.some_bind]
                    rw [if_pos (by constructor <;> omega)]
                    have e3 : ∀ a b e d : Char, ∀ X : List Char, ∀ hi : Nat,
                        decodeLowSurrogate hi ('\\' :: 'u' :: (a :: b :: e :: d :: X))
                          = (hex4Val a b e d).bind fun m =>
                              if 56320 ≤ m ∧ m < 57344 then
                                some (Char.ofNat (65536 + (hi - 55296) * 1024 + (m - 56320)), X)
                              else none := by
                      intro a b e d X hi
                      have : decodeLowSurrogate hi ('\\' :: 'u' :: (a :: b :: e :: d :: X))
                          = if ('\\' : Char) = '\\' ∧ ('u' : Char) = 'u' then
                              (hex4Val a b e d).bind fun m =>
                                if 56320 ≤ m ∧ m < 57344 then
                                  some (Char.ofNat (65536 + (hi - 55296) * 1024 + (m - 56320)), X)
                                else none
                            else none := rfl
                      rw [this, if_pos ⟨rfl, rfl⟩]
                    rw [e3, hex4Val_hexDigit _ hn2, Option.some_bind]
                    rw [if_pos (by
                      constructor
                      · omega
                      · have := Nat.mod_lt k (show 0 < 1024 by omega)
                        omega)]
                    have hchar : Char.ofNat (65536 + (55296 + k / 1024 - 55296) * 1024
                        + (56320 + k % 1024 - 56320)) = c := by
                      have harith : 65536 + (55296 + k / 1024 - 55296) * 1024
                          + (56320 + k % 1024 - 56320) = c.toNat := by
                        have hdm := Nat.div_add_mod k 1024
                        omega
                      rw [harith, Char.ofNat_toNat]
                    rw [Option.some_bind, ht, Option.map_some', hchar]
                · rw [if_neg h8]
                  have e1 : ([c] : List Char) ++ t = c :: t := rfl
                  rw [e1, hlit c t h1 h2, ht, Option.map_some']

/-- Decoding inverts escaping of a whole string body (with enough fuel). -/
theorem decodeStringF_escape (s : List Char) : ∀ (fuel : Nat) (rest : List Char),
    s.length < fuel → decodeStringF fuel (escape s ++ '\"' :: rest) = some (s, rest) := by
  induction s with
  | nil =>
    intro fuel rest h
    cases fuel with
    | zero => omega
    | succ f =>
      have e : escape [] ++ '\"' :: rest = '\"' :: rest := rfl
      rw [e]
      rfl
  | cons c cs ih =>
    intro fuel rest h
    cases fuel with
    | zero => omega
    | succ f =>
      have e : escape (c :: cs) ++ '\"' :: rest
          = escapeChar c ++ (escape cs ++ '\"' :: rest) := by
        have : escape (c :: cs) = escapeChar c ++ escape cs := rfl
        rw [this, List.append_assoc]
      rw [e]
      exact decodeStringF_escapeChar c _ cs rest f (ih f rest (by simpa using Nat.lt_of_succ_lt_succ (by simpa using h)))

/-- Every character escapes to at least one character. -/
theorem escapeChar_length_pos (c : Char) : 1 ≤ (escapeChar c).length := by
  rw [escapeChar]
  repeat' split
  all_goals simp [hex4]

/-- Escaping does not shorten a string. -/
theorem escape_length (s : List Char) : s.length ≤ (escape s).length := by
  induction s with
  | nil => simp [escape]
  | cons c cs ih =>
    have e : escape (c :: cs) = escapeChar c ++ escape cs := rfl
    rw [e, List.length_append, List.length_cons]
    have := escapeChar_length_pos c
    omega

/-- Decoding inverts escaping (the wrapper picks sufficient fuel). -/
theorem decodeString_escape (s rest : List Char) :
    decodeString (escape s ++ '\"' :: rest) = some (s, rest) := by
  rw [decodeString]
  apply decodeStringF_escape
  have := escape_length s
  simp only [List.length_append, List.length_cons]
  omega

/-- Decoding inverts value serialization. -/
theorem decodeVal_serializeVal (v : JVal) (rest : List Char) :
    decodeVal (serializeVal v ++ rest) = some (v, rest) := by
  cases v with
  | null =>
    rw [serializeVal, decodeVal.eq_def]
    have ht : (['n', 'u', 'l', 'l'] ++ rest).take 4 = ['n', 'u', 'l', 'l'] := by
      have : 4 = (['n', 'u', 'l', 'l'] : List Char).length := rfl
      rw [this, List.take_left]
    have hd : (['n', 'u', 'l', 'l'] ++ rest).drop 4 = rest := by
      have : 4 = (['n', 'u', 'l', 'l'] : List Char).length := rfl
      rw [this, List.drop_left]
    rw [if_pos ht, hd]
  | str s =>
    rw [serializeVal, quoteStr, decodeVal.eq_def]
    have e : ('\"' :: (escape s ++ ['\"'])) ++ rest = '\"' :: (escape s ++ '\"' :: rest) := by
      simp
    rw [e]
    rw [if_neg (by
      intro hcontra
      have : ('\"' :: (escape s ++ '\"' :: rest)).take 4
          = '\"' :: (escape s ++ '\"' :: rest).take 3 := rfl
      rw [this] at hcontra
      have := List.cons.inj hcontra
      exact absurd this.1 (by decide))]
    simp [decodeString_escape]

/-- Decoding inverts member serialization. -/
theorem decodeItem_serializeItem (kv : List Char × JVal) (rest : List Char) :
    decodeItem (serializeItem kv ++ rest) = some (kv, rest) := by
  rw [serializeItem, quoteStr]
  have e : (('\"' :: (escape kv.1 ++ ['\"'])) ++ ':' :: ' ' :: serializeVal kv.2) ++ rest
      = '\"' :: (escape kv.1 ++ '\"' :: (':' :: ' ' :: (serializeVal kv.2 ++ rest))) := by
    simp
  rw [e, decodeItem]
  rw [if_pos rfl, decodeString_escape, Option.some_bind]
  simp [decodeVal_serializeVal]

/-- A serialized member is nonempty. -/
theorem serializeItem_length_pos (kv : List Char × JVal) :
    1 ≤ (serializeItem kv).length := by
  rw [serializeItem, quoteStr]
  simp

/-- Unfolding of the two-or-more-member serialization. -/
theorem serializeItems_cons_cons (kv x : List Char × JVal) (xs : List (List Char × JVal)) :
    serializeItems (kv :: x :: xs) = serializeItem kv ++ ',' :: ' ' :: serializeItems (x :: xs) :=
  rfl

/-- A serialized member sequence is at least as long as the member list. -/
theorem serializeItems_length (items : RecordFields) :
    items.length ≤ (serializeItems items).length := by
  match items with
  | [] => simp [serializeItems]
  | [kv] =>
    have e : serializeItems [kv] = serializeItem kv := rfl
    rw [e]
    have := serializeItem_length_pos kv
    simp
    omega
  | kv :: x :: xs =>
    rw [serializeItems_cons_cons]
    have h1 := serializeItem_length_pos kv
    have h2 := serializeItems_length (x :: xs)
    have h3 : (x :: xs).length = xs.length + 1 := by simp
    simp only [List.length_append, List.length_cons]
    omega

/-- A serialized nonempty member sequence is nonempty. -/
theorem serializeItems_length_pos (kv : List Char × JVal) (tl : List (List Char × JVal)) :
    1 ≤ (serializeItems (kv :: tl)).length := by
  match tl with
  | [] =>
    have e : serializeItems [kv] = serializeItem kv := rfl
    rw [e]
    exact serializeItem_length_pos kv
  | x :: xs =>
    rw [serializeItems_cons_cons]
    have := serializeItem_length_pos kv
    simp only [List.length_append, List.length_cons]
    omega

/-- Decoding inverts member-sequence serialization for a nonempty member
list followed by the closing brace. -/
theorem decodeItems_serializeItems (items : RecordFields) :
    ∀ fuel : Nat, items ≠ [] → items.length ≤ fuel →
      decodeItems fuel (serializeItems items ++ [rbrace]) = some (items, [rbrace]) := by
  match items with
  | [] => intro fuel h _; exact absurd rfl h
  | [kv] =>
    intro fuel _ hf
    cases fuel with
    | zero => simp at hf
    | succ f =>
      have e : serializeItems [kv] = serializeItem kv := rfl
      rw [e]
      have step : decodeItems (f + 1) (serializeItem kv ++ [rbrace])
          = (decodeItem (serializeItem kv ++ [rbrace])).bind fun p =>
              match p.2 with
              | d1 :: d2 :: rest5 =>
                if d1 = ',' ∧ d2 = ' ' then
                  (decodeItems f rest5).map (fun q => (p.1 :: q.1, q.2))
                else some ([p.1], p.2)
              | _ => some ([p.1], p.2) := rfl
      rw [step, decodeItem_serializeItem kv [rbrace], Option.some_bind]
  | kv :: x :: xs =>
    intro fuel _ hf
    cases fuel with
    | zero => simp at hf
    | succ f =>
      rw [serializeItems_cons_cons]
      have e : (serializeItem kv ++ ',' :: ' ' :: serializeItems (x :: xs)) ++ [rbrace]
          = serializeItem kv ++ (',' :: ' ' :: (serializeItems (x :: xs) ++ [rbrace])) := by
        simp
      rw [e]
      have step : decodeItems (f + 1)
            (serializeItem kv ++ (',' :: ' ' :: (serializeItems (x :: xs) ++ [rbrace])))
          = (decodeItem (serializeItem kv
              ++ (',' :: ' ' :: (serializeItems (x :: xs) ++ [rbrace])))).bind fun p =>
              match p.2 with
              | d1 :: d2 :: rest5 =>
                if d1 = ',' ∧ d2 = ' ' then
                  (decodeItems f rest5).map (fun q => (p.1 :: q.1, q.2))
                else some ([p.1], p.2)
              | _ => some ([p.1], p.2) := rfl
      rw [step, decodeItem_serializeItem kv _, Option.some_bind]
      have hrec := decodeItems_serializeItems (x :: xs) f (by simp)
        (by simp at hf ⊢; omega)
      simp [hrec]

/-- Decoding inverts the whole canonical serialization. -/
theorem decodeObj_json_dumps (r : RecordFields) :
    decodeObj (json_dumps_sorted r) = some (canonicalFields r) := by
  rw [json_dumps_sorted]
  rcases hitems : canonicalFields r with _ | ⟨kv, tl⟩
  · rfl
  · have hne : serializeItems (kv :: tl) ++ [rbrace] ≠ [rbrace] := by
      intro hcontra
      have hlen := congrArg List.length hcontra
      simp only [List.length_append, List.length_cons, List.length_nil] at hlen
      have := serializeItems_length_pos kv tl
      omega
    have hobj : decodeObj (lbrace :: (serializeItems (kv :: tl) ++ [rbrace]))
        = (if serializeItems (kv :: tl) ++ [rbrace] = [rbrace] then some []
           else
             match decodeItems (serializeItems (kv :: tl) ++ [rbrace]).length
                 (serializeItems (kv :: tl) ++ [rbrace]) with
             | some (items, [e]) => if e = rbrace then some items else none
             | _ => none) := by
      have : decodeObj (lbrace :: (serializeItems (kv :: tl) ++ [rbrace]))
          = if lbrace = lbrace then
              (if serializeItems (kv :: tl) ++ [rbrace] = [rbrace] then some []
               else
                 match decodeItems (serializeItems (kv :: tl) ++ [rbrace]).length
                     (serializeItems (kv :: tl) ++ [rbrace]) with
                 | some (items, [e]) => if e = rbrace then some items else none
                 | _ => none)
            else none := rfl
      rw [this, if_pos rfl]
    rw [hobj, if_neg hne]
    have hfuel : (kv :: tl).length ≤ (serializeItems (kv :: tl) ++ [rbrace]).length := by
      have := serializeItems_length (kv :: tl)
      simp only [List.length_append, List.length_cons, List.length_nil] at this ⊢
      omega
    rw [decodeItems_serializeItems (kv :: tl) _ (by simp) hfuel]
    simp

/-- The key comparison is total. -/
theorem keyLe_total : ∀ a b : List Char, keyLe a b = true ∨ keyLe b a = true
  | [], _ => Or.inl rfl
  | _ :: _, [] => Or.inr rfl
  | x :: l₁, y :: l₂ => by
    rw [keyLe, keyLe]
    by_cases hxy : x < y
    · left
      rw [if_pos hxy]
    · by_cases hyx : y < x
      · right
        rw [if_pos hyx]
      · have hxy2 : x = y := le_antisymm (not_lt.1 hyx) (not_lt.1 hxy)
        subst hxy2
        rw [if_neg hxy, if_pos rfl, if_neg hxy, if_pos rfl]
        exact keyLe_total l₁ l₂

/-- The key comparison is transitive. -/
theorem keyLe_trans : ∀ a b c : List Char,
    keyLe a b = true → keyLe b c = true → keyLe a c = true
  | [], _, _, _, _ => rfl
  | _ :: _, [], _, h, _ => by rw [keyLe] at h; cases h
  | _ :: _, _ :: _, [], _, h => by rw [keyLe] at h; cases h
  | x :: l₁, y :: l₂, z :: l₃, h1, h2 => by
    rw [keyLe] at h1 h2 ⊢
    by_cases hxy : x < y
    · by_cases hyz : y < z
      · rw [if_pos (lt_trans hxy hyz)]
      · by_cases hyz2 : y = z
        · subst hyz2
          rw [if_pos hxy]
        · rw [if_neg hyz, if_neg hyz2] at h2
          cases h2
    · by_cases hxy2 : x = y
      · subst hxy2
        rw [if_neg hxy, if_pos rfl] at h1
        by_cases hyz : x < z
        · rw [if_pos hyz]
        · by_cases hyz2 : x = z
          · subst hyz2
            rw [if_neg hyz, if_pos rfl] at h2 ⊢
            exact keyLe_trans l₁ l₂ l₃ h1 h2
          · rw [if_neg hyz, if_neg hyz2] at h2
            cases h2
      · rw [if_neg hxy, if_neg hxy2] at h1
        cases h1

/-- The key comparison is antisymmetric. -/
theorem keyLe_antisymm : ∀ a b : List Char,
    keyLe a b = true → keyLe b a = true → a = b
  | [], [], _, _ => rfl
  | [], _ :: _, _, h => by rw [keyLe] at h; cases h
  | _ :: _, [], h, _ => by rw [keyLe] at h; cases h
  | x :: l₁, y :: l₂, h1, h2 => by
    rw [keyLe] at h1 h2
    by_cases hxy : x < y
    · by_cases hyx : y < x
      · exact absurd hyx (lt_asymm hxy)
      · by_cases hyx2 : y = x
        · subst hyx2
          exact absurd hxy (lt_irrefl _)
        · rw [if_neg hyx, if_neg hyx2] at h2
          cases h2
    · by_cases hxy2 : x = y
      · subst hxy2
        rw [if_neg hxy, if_pos rfl] at h1 h2
        rw [keyLe_antisymm l₁ l₂ h1 h2]
      · rw [if_neg hxy, if_neg hxy2] at h1
        cases h1

/-- Canonicalization permutes the field list. -/
theorem canonicalFields_perm (r : RecordFields) : List.Perm (canonicalFields r) r :=
  List.mergeSort_perm r _

/-- Canonicalization sorts by key. -/
theorem canonicalFields_pairwise (r : RecordFields) :
    List.Pairwise (fun p q : List Char × JVal => keyLe p.1 q.1 = true) (canonicalFields r) := by
  have h := @List.sorted_mergeSort (List Char × JVal)
    (fun p q : List Char × JVal => keyLe p.1 q.1)
    (fun a b c h1 h2 => keyLe_trans a.1 b.1 c.1 h1 h2)
    (fun a b => by
      rw [Bool.or_eq_true]
      exact keyLe_total a.1 b.1) r
  exact h

/-- Records with unique keys that are permutations of each other have the
same canonical field list. -/
theorem canonicalFields_eq_of_perm (r1 r2 : RecordFields) (hp : List.Perm r1 r2)
    (hnd : (r1.map Prod.fst).Nodup) : canonicalFields r1 = canonicalFields r2 := by
  have hperm : List.Perm (canonicalFields r1) (canonicalFields r2) :=
    (canonicalFields_perm r1).trans (hp.trans (canonicalFields_perm r2).symm)
  have hndkeys : ∀ r : RecordFields, (r.map Prod.fst).Nodup →
      List.Pairwise (fun p q : List Char × JVal => p.1 ≠ q.1) (canonicalFields r) := by
    intro r hr
    have h1 : List.Pairwise (fun p q : List Char × JVal => p.1 ≠ q.1) r :=
      (List.pairwise_map).1 hr
    exact (List.Perm.pairwise_iff (fun h => Ne.symm h) (canonicalFields_perm r)).2 h1
  have hnd2 : (r2.map Prod.fst).Nodup := (hp.map Prod.fst).nodup_iff.1 hnd
  have hs1 : List.Pairwise
      (fun p q : List Char × JVal => keyLe p.1 q.1 = true ∧ p.1 ≠ q.1) (canonicalFields r1) :=
    (canonicalFields_pairwise r1).and (hndkeys r1 hnd)
  have hs2 : List.Pairwise
      (fun p q : List Char × JVal => keyLe p.1 q.1 = true ∧ p.1 ≠ q.1) (canonicalFields r2) :=
    (canonicalFields_pairwise r2).and (hndkeys r2 hnd2)
  haveI : IsAntisymm (List Char × JVal)
      (fun p q : List Char × JVal => keyLe p.1 q.1 = true ∧ p.1 ≠ q.1) :=
    ⟨fun a b hab hba => absurd (keyLe_antisymm a.1 b.1 hab.1 hba.1) hab.2⟩
  exact List.eq_of_perm_of_sorted hperm hs1 hs2

/-- C5: the fingerprint input (the canonical serialization fed to the
deterministic SHA-256 digest) is permutation-invariant on records with
unique keys — fields presented in any order hash identically — and
injective on canonical field lists, so records differing in any field
yield different fingerprint inputs (hence different digests up to a hash
collision, the proviso the claim itself makes); conversely equal
fingerprint inputs force the records to hold the same fields. -/
theorem C5_fingerprint_order_independent_injective :
    (∀ r1 r2 : RecordFields, List.Perm r1 r2 → (r1.map Prod.fst).Nodup →
        content_hash r1 = content_hash r2)
    ∧ (∀ r1 r2 : RecordFields, canonicalFields r1 ≠ canonicalFields r2 →
        content_hash r1 ≠ content_hash r2)
    ∧ (∀ r1 r2 : RecordFields, content_hash r1 = content_hash r2 → List.Perm r1 r2) := by
  refine ⟨?_, ?_, ?_⟩
  · intro r1 r2 hp hnd
    rw [content_hash, content_hash, json_dumps_sorted, json_dumps_sorted,
      canonicalFields_eq_of_perm r1 r2 hp hnd]
  · intro r1 r2 hne heq
    apply hne
    have h1 := decodeObj_json_dumps r1
    have h2 := decodeObj_json_dumps r2
    rw [content_hash, content_hash] at heq
    rw [heq, h2] at h1
    exact (Option.some.inj h1).symm
  · intro r1 r2 heq
    have h1 := decodeObj_json_dumps r1
    have h2 := decodeObj_json_dumps r2
    rw [content_hash, content_hash] at heq
    rw [heq, h2] at h1
    have hc : canonicalFields r2 = canonicalFields r1 := Option.some.inj h1
    have hB : List.Perm (canonicalFields r1) r2 := by
      rw [← hc]
      exact canonicalFields_perm r2
    exact (canonicalFields_perm r1).symm.trans hB

/-- C5 witness: two permuted two-field records hash identically; two
records differing in their field sets hash differently. -/
theorem C5_fingerprint_witness :
    content_hash [("a".data, JVal.null), ("b".data, JVal.str "x".data)]
        = content_hash [("b".data, JVal.str "x".data), ("a".data, JVal.null)]
    ∧ content_hash [("a".data, JVal.null)] ≠ content_hash [("b".data, JVal.str "x".data)] := by
  constructor
  · exact C5_fingerprint_order_independent_injective.1 _ _
      (List.Perm.swap ("b".data, JVal.str "x".data) ("a".data, JVal.null) [])
      (by decide)
  · apply C5_fingerprint_order_independent_injective.2.1
    intro hcon
    have hB : List.Perm (canonicalFields [(("a".data : List Char), JVal.null)])
        [(("b".data : List Char), JVal.str "x".data)] := by
      rw [hcon]
      exact canonicalFields_perm _
    have hp := (canonicalFields_perm
      [(("a".data : List Char), JVal.null)]).symm.trans hB
    exact absurd (List.perm_singleton.1 hp) (by decide)
